import Mathlib

/-!
Verification of the mount-lifecycle coordinator in `mounted_file_system.go`
(package `fuse`).

The Go file defines a `MountedFileSystem` struct with two write-once
outcome fields (`readyStatus`, `joinStatus`), each paired with a channel
(`readyStatusAvailable`, `joinStatusAvailable`) that is closed to broadcast
availability, plus the wait operations `WaitForReady` and `Join` (both a
two-way `select` against the caller's context) and the background
orchestration `mountAndServe`.

Shallow embedding used here:

* Go `error` values are modelled by `Option String` (`none` = nil; a
  non-nil error is identified with its message, which is all this code
  ever constructs or compares).
* The struct is the record `MountedFileSystem`; a channel is modelled by
  the `Bool` "has been closed".
* `mountAndServe` performs a fixed sequence of observable events on each
  path (field writes, channel closes, the `server.Serve` call and the
  deferred `c.Close()`); after a successful driver mount it spawns a
  readiness goroutine that runs concurrently with the serve code, so an
  execution is an arbitrary interleaving (`Interleave`) of the two fixed
  event lists.  `MountAndServeTrace beh t` says `t` is the event trace of
  one complete execution of `mountAndServe` under driver behaviour `beh`.
* `WaitForReady`/`Join` are the `select`: when both the status channel and
  the context are ready, Go's `select` picks nondeterministically, which
  the extra `pick` argument resolves; when neither is ready the call
  blocks (`WaitOutcome.blocks`).  Each returns the (unchanged) struct as
  well, so that absence of side effects is a provable statement.
-/

namespace Fuse

/-- A Go `error` value: `none` is nil, `some msg` an error with message `msg`.
The code under verification builds errors only via `errors.New` on strings. -/
abbrev GoError := Option String

/-- The caller-supplied `context.Context`, reduced to what `WaitForReady` and
`Join` consume: whether `ctx.Done()` has fired, and the message of `ctx.Err()`
once it has. -/
structure Context where
  done : Bool
  errMsg : String
deriving DecidableEq, Repr

/-- Go's `ctx.Err()`: non-nil exactly when `Done` has fired. -/
def Context.err (ctx : Context) : GoError :=
  if ctx.done then some ctx.errMsg else none

/-- The `MountedFileSystem` struct.  `readyStatusAvailable` and
`joinStatusAvailable` are channels in the source; here the `Bool` records
whether the channel has been closed.  Go zero values / `Mount`'s
initialisation give nil statuses and open channels. -/
structure MountedFileSystem where
  dir : String
  readyStatus : GoError
  readyStatusAvailable : Bool
  joinStatus : GoError
  joinStatusAvailable : Bool
deriving DecidableEq, Repr

/-- Result of one `select`-based wait call. -/
inductive WaitOutcome where
  | returns (e : GoError)
  | blocks
deriving DecidableEq, Repr

/-- `func (mfs *MountedFileSystem) Dir() string`. -/
def Dir (mfs : MountedFileSystem) : String := mfs.dir

/-- `func (mfs *MountedFileSystem) WaitForReady(ctx context.Context) error`:
`select` on `mfs.readyStatusAvailable` vs `ctx.Done()`.  `pick = true` means
the `select` chooses the status branch when both are ready.  Returns the
result together with the struct after the call (the call never mutates it). -/
def WaitForReady (mfs : MountedFileSystem) (ctx : Context) (pick : Bool) :
    WaitOutcome × MountedFileSystem :=
  match mfs.readyStatusAvailable, ctx.done with
  | true, false => (.returns mfs.readyStatus, mfs)
  | true, true =>
      if pick then (.returns mfs.readyStatus, mfs) else (.returns ctx.err, mfs)
  | false, true => (.returns ctx.err, mfs)
  | false, false => (.blocks, mfs)

/-- `func (mfs *MountedFileSystem) Join(ctx context.Context) error`:
`select` on `mfs.joinStatusAvailable` vs `ctx.Done()`. -/
def Join (mfs : MountedFileSystem) (ctx : Context) (pick : Bool) :
    WaitOutcome × MountedFileSystem :=
  match mfs.joinStatusAvailable, ctx.done with
  | true, false => (.returns mfs.joinStatus, mfs)
  | true, true =>
      if pick then (.returns mfs.joinStatus, mfs) else (.returns ctx.err, mfs)
  | false, true => (.returns ctx.err, mfs)
  | false, false => (.blocks, mfs)

/-! ## The background orchestration `mountAndServe` as an event trace -/

/-- Observable events of `mountAndServe`: writes to the two outcome fields,
closes of the two channels, the call to `server.Serve`, and the deferred
`c.Close()`. -/
inductive Event where
  | writeReady (v : GoError)
  | closeReady
  | writeJoin (v : GoError)
  | closeJoin
  | serveCall
  | connClose
deriving DecidableEq, Repr

/-- Effect of one event on the struct (`serveCall` and `connClose` act on the
external connection, not on the struct). -/
def applyEvent (s : MountedFileSystem) : Event → MountedFileSystem
  | .writeReady v => { s with readyStatus := v }
  | .closeReady => { s with readyStatusAvailable := true }
  | .writeJoin v => { s with joinStatus := v }
  | .closeJoin => { s with joinStatusAvailable := true }
  | .serveCall => s
  | .connClose => s

/-- The struct after a trace of events has been applied. -/
def run (s : MountedFileSystem) (t : List Event) : MountedFileSystem :=
  t.foldl applyEvent s

/-- Error message built on the driver-mount failure path:
`errors.New("bazilfuse.Mount: " + err.Error())`. -/
def mountWrap (e : String) : String := "bazilfuse.Mount: " ++ e

/-- Error message built on the serve failure path:
`errors.New("Serve: " + err.Error())`. -/
def serveWrap (f : String) : String := "Serve: " ++ f

/-- `w` wraps `e`: the message of `e` is preserved inside `w`. -/
def wraps (w e : String) : Prop := ∃ pre, w = pre ++ e

/-- Events of `mountAndServe` when `bazilfuse.Mount` returns error `e`:
write the wrapped error into `readyStatus`, close `readyStatusAvailable`,
return.  No `Serve`, no join events, no connection to close. -/
def mountFailTrace (e : String) : List Event :=
  [.writeReady (some (mountWrap e)), .closeReady]

/-- Events of the readiness goroutine spawned after a successful mount:
await `c.Ready`, copy `c.MountError` (here `carriedErr`) into `readyStatus`,
close `readyStatusAvailable`. -/
def readyGoroutine (carriedErr : GoError) : List Event :=
  [.writeReady carriedErr, .closeReady]

/-- Events of the main flow of `mountAndServe` after a successful mount:
call `server.Serve(c)`; on a non-nil error write the wrapped error into
`joinStatus`; close `joinStatusAvailable`; the deferred `c.Close()` runs
last in either case. -/
def serveFlow (serveErr : GoError) : List Event :=
  match serveErr with
  | some f => [.serveCall, .writeJoin (some (serveWrap f)), .closeJoin, .connClose]
  | none => [.serveCall, .closeJoin, .connClose]

/-- `Interleave as bs cs`: `cs` is an interleaving of `as` and `bs` that
preserves the internal order of each. -/
inductive Interleave : List Event → List Event → List Event → Prop where
  | nil : Interleave [] [] []
  | left {a : Event} {as bs cs} :
      Interleave as bs cs → Interleave (a :: as) bs (a :: cs)
  | right {b : Event} {as bs cs} :
      Interleave as bs cs → Interleave as (b :: bs) (b :: cs)

/-- Complete executions of `mountAndServe`, as a relation
`MountAndServeTrace driverErr carriedErr serveErr trace` where `driverErr`
is the error returned by `bazilfuse.Mount`, `carriedErr` the `c.MountError`
carried by the connection's `Ready` signal (meaningful only when the mount
succeeded), and `serveErr` the error returned by `server.Serve`.  On driver
failure the trace is the fixed failure sequence; on success it is any
interleaving of the readiness goroutine with the serve flow (the goroutine
is spawned before `Serve` is called and its `<-c.Ready` may fire at any
point relative to serving). -/
inductive MountAndServeTrace : GoError → GoError → GoError → List Event → Prop where
  | mountFailed (e : String) (carriedErr serveErr : GoError) :
      MountAndServeTrace (some e) carriedErr serveErr (mountFailTrace e)
  | mountSucceeded (carriedErr serveErr : GoError) (t : List Event) :
      Interleave (readyGoroutine carriedErr) (serveFlow serveErr) t →
      MountAndServeTrace none carriedErr serveErr t

/-! ## Event classification -/

def isWriteReady : Event → Bool
  | .writeReady _ => true
  | _ => false

def isCloseReady : Event → Bool
  | .closeReady => true
  | _ => false

def isWriteJoin : Event → Bool
  | .writeJoin _ => true
  | _ => false

def isCloseJoin : Event → Bool
  | .closeJoin => true
  | _ => false

def isServeCall : Event → Bool
  | .serveCall => true
  | _ => false

def isConnClose : Event → Bool
  | .connClose => true
  | _ => false

/-- Events touching the ready field or its channel. -/
def isReadyEvent (e : Event) : Bool := isWriteReady e || isCloseReady e

/-- Events touching the join field or its channel. -/
def isJoinEvent (e : Event) : Bool := isWriteJoin e || isCloseJoin e

/-- Any write to an outcome field. -/
def isOutcomeWrite (e : Event) : Bool := isWriteReady e || isWriteJoin e

/-! ## `Mount` (the constructor) -/

/-- The user-supplied file system implementation, opaque to the coordinator. -/
structure FileSystem where
  tag : Nat
deriving DecidableEq, Repr

/-- `type MountConfig struct {}` — no options in the base core. -/
structure MountConfig where
deriving DecidableEq, Repr

/-- The request server wrapping a file system. -/
structure Server where
  fs : FileSystem
deriving DecidableEq, Repr

/-- Modelled from the spec: `newServer` is declared in this repository but its
body is not under `src/`.  Per the spec, `Create` "validates nothing beyond
what the driver requires" and "never fails synchronously except on malformed
configuration"; configuration is not even passed to `newServer`, so server
construction always succeeds. -/
def newServer (fs : FileSystem) : Except String Server := .ok ⟨fs⟩

/-- The struct as initialised inside `Mount`: `dir` set, both channels fresh
(open), both statuses at their zero value nil. -/
def initialStruct (dir : String) : MountedFileSystem :=
  { dir := dir
    readyStatus := none
    readyStatusAvailable := false
    joinStatus := none
    joinStatusAvailable := false }

/-- `func Mount(dir string, fs FileSystem, config *MountConfig)
(*MountedFileSystem, error)`: builds the server, initialises the struct,
spawns `mountAndServe` in the background (whose executions are
`MountAndServeTrace`), and returns at once. -/
def Mount (dir : String) (fs : FileSystem) (config : MountConfig) :
    Option MountedFileSystem × GoError :=
  match newServer fs with
  | .error e => (none, some e)
  | .ok _ => (some (initialStruct dir), none)

/-! ## Helper lemmas about traces and interleavings -/

theorem run_append (s : MountedFileSystem) (xs ys : List Event) :
    run s (xs ++ ys) = run (run s xs) ys :=
  List.foldl_append _ _ _ _

theorem interleave_filter (p : Event → Bool) {as bs cs : List Event}
    (h : Interleave as bs cs) :
    Interleave (as.filter p) (bs.filter p) (cs.filter p) := by
  induction h with
  | nil => exact .nil
  | @left a as bs cs _ ih =>
      by_cases hp : p a
      · simpa [List.filter_cons, hp] using Interleave.left ih
      · simpa [List.filter_cons, hp] using ih
  | @right b as bs cs _ ih =>
      by_cases hp : p b
      · simpa [List.filter_cons, hp] using Interleave.right ih
      · simpa [List.filter_cons, hp] using ih

theorem interleave_eq_of_right_nil {as bs cs : List Event}
    (h : Interleave as bs cs) (hbs : bs = []) : cs = as := by
  induction h with
  | nil => rfl
  | left _ ih => rw [ih hbs]
  | right _ _ => simp at hbs

theorem interleave_eq_of_left_nil {as bs cs : List Event}
    (h : Interleave as bs cs) (has : as = []) : cs = bs := by
  induction h with
  | nil => rfl
  | left _ _ => simp at has
  | right _ ih => rw [ih has]

theorem interleave_countP (p : Event → Bool) {as bs cs : List Event}
    (h : Interleave as bs cs) :
    cs.countP p = as.countP p + bs.countP p := by
  induction h with
  | nil => rfl
  | left _ ih => simp only [List.countP_cons, ih]; omega
  | right _ ih => simp only [List.countP_cons, ih]; omega

theorem interleave_self_left (as : List Event) : Interleave as [] as := by
  induction as with
  | nil => exact .nil
  | cons a as ih => exact .left ih

theorem interleave_self_right (bs : List Event) : Interleave [] bs bs := by
  induction bs with
  | nil => exact .nil
  | cons b bs ih => exact .right ih

theorem interleave_append_right (as bs : List Event) :
    Interleave as bs (bs ++ as) := by
  induction bs with
  | nil => simpa using interleave_self_left as
  | cons b bs ih => exact .right ih

theorem filter_ready_readyGoroutine (c : GoError) :
    (readyGoroutine c).filter isReadyEvent = [.writeReady c, .closeReady] := rfl

theorem filter_ready_serveFlow (s : GoError) :
    (serveFlow s).filter isReadyEvent = [] := by
  cases s <;> rfl

theorem filter_join_readyGoroutine (c : GoError) :
    (readyGoroutine c).filter isJoinEvent = [] := rfl

/-- Final value of `readyStatus` fixed by the driver behaviour: the wrapped
driver error on the failure path, the carried `c.MountError` otherwise. -/
def readyOutcomeValue (d c : GoError) : GoError :=
  match d with
  | some e => some (mountWrap e)
  | none => c

/-- Final value of `joinStatus` on the successful-mount path: the wrapped
serve error if any, otherwise its zero value nil. -/
def joinOutcomeValue (s : GoError) : GoError := s.map serveWrap

/-- The ready-side events of any complete `mountAndServe` execution are
exactly one write of the outcome followed by one close of the channel. -/
theorem trace_filter_ready {d c s : GoError} {t : List Event}
    (h : MountAndServeTrace d c s t) :
    t.filter isReadyEvent = [.writeReady (readyOutcomeValue d c), .closeReady] := by
  cases h with
  | mountFailed e c s => rfl
  | mountSucceeded c s t hint =>
      have h1 := interleave_filter isReadyEvent hint
      rw [filter_ready_serveFlow] at h1
      rw [interleave_eq_of_right_nil h1 rfl, filter_ready_readyGoroutine]
      rfl

/-- Join-side events of the serve flow, as a function of the serve error: an
optional single write of the wrapped serve error, then one channel close. -/
def joinEventsOf (s : GoError) : List Event :=
  match s with
  | some f => [.writeJoin (some (serveWrap f)), .closeJoin]
  | none => [.closeJoin]

/-- The join-side events of a successful-mount execution: an optional single
write of the wrapped serve error, followed by one close of the channel. -/
theorem trace_filter_join_ok {c s : GoError} {t : List Event}
    (h : MountAndServeTrace none c s t) :
    t.filter isJoinEvent = joinEventsOf s := by
  cases h with
  | mountSucceeded c s t hint =>
      have h1 := interleave_filter isJoinEvent hint
      rw [filter_join_readyGoroutine] at h1
      rw [interleave_eq_of_left_nil h1 rfl]
      cases s <;> rfl

/-! ### Field views of a run -/

/-- Effect of an event on the pair (`readyStatus`, `readyStatusAvailable`). -/
def applyReadyView (rv : GoError × Bool) : Event → GoError × Bool
  | .writeReady v => (v, rv.2)
  | .closeReady => (rv.1, true)
  | _ => rv

/-- Fold of `applyReadyView` over a trace. -/
def readyViewRun (rv : GoError × Bool) (t : List Event) : GoError × Bool :=
  t.foldl applyReadyView rv

/-- Effect of an event on the pair (`joinStatus`, `joinStatusAvailable`). -/
def applyJoinView (rv : GoError × Bool) : Event → GoError × Bool
  | .writeJoin v => (v, rv.2)
  | .closeJoin => (rv.1, true)
  | _ => rv

/-- Fold of `applyJoinView` over a trace. -/
def joinViewRun (rv : GoError × Bool) (t : List Event) : GoError × Bool :=
  t.foldl applyJoinView rv

theorem run_readyView (s : MountedFileSystem) (t : List Event) :
    ((run s t).readyStatus, (run s t).readyStatusAvailable) =
      readyViewRun (s.readyStatus, s.readyStatusAvailable) t := by
  induction t generalizing s with
  | nil => rfl
  | cons e t ih =>
      have h1 : run s (e :: t) = run (applyEvent s e) t := rfl
      have h2 : readyViewRun (s.readyStatus, s.readyStatusAvailable) (e :: t) =
          readyViewRun (applyReadyView (s.readyStatus, s.readyStatusAvailable) e) t := rfl
      rw [h1, h2, ih]
      congr 1
      cases e <;> rfl

theorem run_joinView (s : MountedFileSystem) (t : List Event) :
    ((run s t).joinStatus, (run s t).joinStatusAvailable) =
      joinViewRun (s.joinStatus, s.joinStatusAvailable) t := by
  induction t generalizing s with
  | nil => rfl
  | cons e t ih =>
      have h1 : run s (e :: t) = run (applyEvent s e) t := rfl
      have h2 : joinViewRun (s.joinStatus, s.joinStatusAvailable) (e :: t) =
          joinViewRun (applyJoinView (s.joinStatus, s.joinStatusAvailable) e) t := rfl
      rw [h1, h2, ih]
      congr 1
      cases e <;> rfl

theorem readyViewRun_filter (rv : GoError × Bool) (t : List Event) :
    readyViewRun rv t = readyViewRun rv (t.filter isReadyEvent) := by
  induction t generalizing rv with
  | nil => rfl
  | cons e t ih =>
      cases e <;>
        simp only [readyViewRun, List.foldl_cons, List.filter_cons, isReadyEvent,
          isWriteReady, isCloseReady, Bool.or_self, Bool.or_false, Bool.false_or,
          applyReadyView, if_true, if_false, reduceIte] <;>
        exact ih _

theorem joinViewRun_filter (rv : GoError × Bool) (t : List Event) :
    joinViewRun rv t = joinViewRun rv (t.filter isJoinEvent) := by
  induction t generalizing rv with
  | nil => rfl
  | cons e t ih =>
      cases e <;>
        simp only [joinViewRun, List.foldl_cons, List.filter_cons, isJoinEvent,
          isWriteJoin, isCloseJoin, Bool.or_self, Bool.or_false, Bool.false_or,
          applyJoinView, if_true, if_false, reduceIte] <;>
        exact ih _

/-! ### Final states, counting, and stability -/

theorem countP_filter_sub {p q : Event → Bool} (hpq : ∀ e, p e = true → q e = true)
    (t : List Event) : t.countP p = (t.filter q).countP p := by
  induction t with
  | nil => rfl
  | cons e t ih =>
      by_cases hq : q e = true
      · rw [List.filter_cons_of_pos hq, List.countP_cons, List.countP_cons, ih]
      · have hp : p e = false := by
          cases hpe : p e
          · rfl
          · exact absurd (hpq e hpe) hq
        rw [List.filter_cons_of_neg hq, List.countP_cons, ih, hp]
        simp

theorem run_ready_final {d c s : GoError} {t : List Event} (dir : String)
    (h : MountAndServeTrace d c s t) :
    (run (initialStruct dir) t).readyStatus = readyOutcomeValue d c ∧
    (run (initialStruct dir) t).readyStatusAvailable = true := by
  have h1 := run_readyView (initialStruct dir) t
  rw [readyViewRun_filter, trace_filter_ready h] at h1
  exact ⟨congrArg Prod.fst h1, congrArg Prod.snd h1⟩

theorem run_join_final_ok {c s : GoError} {t : List Event} (dir : String)
    (h : MountAndServeTrace none c s t) :
    (run (initialStruct dir) t).joinStatus = joinOutcomeValue s ∧
    (run (initialStruct dir) t).joinStatusAvailable = true := by
  have h1 := run_joinView (initialStruct dir) t
  rw [joinViewRun_filter, trace_filter_join_ok h] at h1
  cases s with
  | none => exact ⟨congrArg Prod.fst h1, congrArg Prod.snd h1⟩
  | some f => exact ⟨congrArg Prod.fst h1, congrArg Prod.snd h1⟩

theorem run_join_final_fail {e : String} {c s : GoError} {t : List Event} (dir : String)
    (h : MountAndServeTrace (some e) c s t) :
    (run (initialStruct dir) t).joinStatus = none ∧
    (run (initialStruct dir) t).joinStatusAvailable = false := by
  cases h with
  | mountFailed e c s => exact ⟨rfl, rfl⟩

theorem run_ready_preserved {s : MountedFileSystem} {t : List Event}
    (hf : t.filter isReadyEvent = []) :
    (run s t).readyStatus = s.readyStatus ∧
    (run s t).readyStatusAvailable = s.readyStatusAvailable := by
  have h1 := run_readyView s t
  rw [readyViewRun_filter, hf] at h1
  exact ⟨congrArg Prod.fst h1, congrArg Prod.snd h1⟩

theorem run_join_preserved {s : MountedFileSystem} {t : List Event}
    (hf : t.filter isJoinEvent = []) :
    (run s t).joinStatus = s.joinStatus ∧
    (run s t).joinStatusAvailable = s.joinStatusAvailable := by
  have h1 := run_joinView s t
  rw [joinViewRun_filter, hf] at h1
  exact ⟨congrArg Prod.fst h1, congrArg Prod.snd h1⟩

theorem run_readyAvailable_of_not_mem {s : MountedFileSystem} {t : List Event}
    (hmem : Event.closeReady ∉ t) :
    (run s t).readyStatusAvailable = s.readyStatusAvailable := by
  induction t generalizing s with
  | nil => rfl
  | cons e t ih =>
      have h1 : Event.closeReady ∉ t := fun hx => hmem (List.mem_cons_of_mem _ hx)
      have h2 : e ≠ Event.closeReady := fun hx => hmem (by rw [hx]; exact List.mem_cons_self _ _)
      show (run (applyEvent s e) t).readyStatusAvailable = _
      rw [ih h1]
      cases e <;> first | rfl | exact absurd rfl h2

theorem run_joinAvailable_of_not_mem {s : MountedFileSystem} {t : List Event}
    (hmem : Event.closeJoin ∉ t) :
    (run s t).joinStatusAvailable = s.joinStatusAvailable := by
  induction t generalizing s with
  | nil => rfl
  | cons e t ih =>
      have h1 : Event.closeJoin ∉ t := fun hx => hmem (List.mem_cons_of_mem _ hx)
      have h2 : e ≠ Event.closeJoin := fun hx => hmem (by rw [hx]; exact List.mem_cons_self _ _)
      show (run (applyEvent s e) t).joinStatusAvailable = _
      rw [ih h1]
      cases e <;> first | rfl | exact absurd rfl h2

theorem closeReady_mem_of_available {dir : String} {xs : List Event}
    (hr : (run (initialStruct dir) xs).readyStatusAvailable = true) :
    Event.closeReady ∈ xs := by
  by_contra hmem
  rw [run_readyAvailable_of_not_mem hmem] at hr
  simp [initialStruct] at hr

theorem closeJoin_mem_of_available {dir : String} {xs : List Event}
    (hr : (run (initialStruct dir) xs).joinStatusAvailable = true) :
    Event.closeJoin ∈ xs := by
  by_contra hmem
  rw [run_joinAvailable_of_not_mem hmem] at hr
  simp [initialStruct] at hr

/-! ### Small combinatorial facts about short append decompositions -/

theorem append_right_nil_of_mem_pair {α : Type} {fx fy : List α} {a b : α}
    (hf : fx ++ fy = [a, b]) (hb : b ∈ fx) (hab : a ≠ b) : fy = [] := by
  cases fx with
  | nil => exact absurd hb (List.not_mem_nil _)
  | cons x1 fx1 =>
      cases fx1 with
      | nil =>
          simp only [List.cons_append, List.nil_append] at hf
          injection hf with h1 h2
          exact absurd ((List.mem_singleton.mp hb).trans h1).symm hab
      | cons x2 rest =>
          simp only [List.cons_append] at hf
          injection hf with h1 h3
          injection h3 with h2 h4
          exact (List.append_eq_nil.mp h4).2

theorem append_right_nil_of_mem_single {α : Type} {fx fy : List α} {b : α}
    (hf : fx ++ fy = [b]) (hb : b ∈ fx) : fy = [] := by
  cases fx with
  | nil => exact absurd hb (List.not_mem_nil _)
  | cons x1 fx1 =>
      simp only [List.cons_append] at hf
      injection hf with h1 h2
      exact (List.append_eq_nil.mp h2).2

theorem pair_middle {α : Type} {fx fy : List α} {a b w : α}
    (hf : fx ++ w :: fy = [a, b]) (hw : w ≠ b) : w = a ∧ b ∈ fy := by
  cases fx with
  | nil =>
      simp only [List.nil_append] at hf
      injection hf with h1 h2
      exact ⟨h1, by rw [h2]; exact List.mem_singleton.mpr rfl⟩
  | cons x1 fx1 =>
      cases fx1 with
      | nil =>
          simp only [List.cons_append, List.nil_append] at hf
          injection hf with h1 h3
          injection h3 with h2 h4
          exact absurd h2 hw
      | cons x2 rest =>
          simp only [List.cons_append] at hf
          injection hf with h1 h3
          injection h3 with h2 h4
          exact (List.cons_ne_nil _ _ ((List.append_eq_nil.mp h4).2)).elim

theorem single_middle {α : Type} {fx fy : List α} {b w : α}
    (hf : fx ++ w :: fy = [b]) : w = b := by
  cases fx with
  | nil =>
      simp only [List.nil_append] at hf
      exact (List.cons_eq_cons.mp hf).1
  | cons x1 fx1 =>
      simp only [List.cons_append] at hf
      injection hf with h1 h2
      exact (List.cons_ne_nil _ _ ((List.append_eq_nil.mp h2).2)).elim

theorem single_decomp {α : Type} {fx fy : List α} {b w : α}
    (hf : fx ++ w :: fy = [b]) : fx = [] ∧ w = b ∧ fy = [] := by
  cases fx with
  | nil =>
      simp only [List.nil_append] at hf
      injection hf with h1 h2
      exact ⟨rfl, h1, h2⟩
  | cons x1 fx1 =>
      simp only [List.cons_append] at hf
      injection hf with h1 h2
      exact (List.cons_ne_nil _ _ ((List.append_eq_nil.mp h2).2)).elim

theorem pair_decomp_last {α : Type} {fx fy : List α} {a b : α}
    (hf : fx ++ b :: fy = [a, b]) (hab : a ≠ b) : fx = [a] ∧ fy = [] := by
  cases fx with
  | nil =>
      simp only [List.nil_append] at hf
      injection hf with h1 h2
      exact absurd h1.symm hab
  | cons x1 fx1 =>
      cases fx1 with
      | nil =>
          simp only [List.cons_append, List.nil_append] at hf
          injection hf with h1 h3
          injection h3 with h2 h4
          rw [h1, h4]
          exact ⟨rfl, rfl⟩
      | cons x2 rest =>
          simp only [List.cons_append] at hf
          injection hf with h1 h3
          injection h3 with h2 h4
          exact (List.cons_ne_nil _ _ ((List.append_eq_nil.mp h4).2)).elim

/-! ### Stability after a channel close, and write-before-close ordering -/

theorem ready_stable_aux {d c s : GoError} {t : List Event} (dir : String)
    (h : MountAndServeTrace d c s t) {xs ys : List Event} (hsplit : t = xs ++ ys)
    (hclosed : (run (initialStruct dir) xs).readyStatusAvailable = true) :
    (run (initialStruct dir) t).readyStatus = (run (initialStruct dir) xs).readyStatus := by
  have hmem := closeReady_mem_of_available hclosed
  have hf := trace_filter_ready h
  rw [hsplit, List.filter_append] at hf
  have hmf : Event.closeReady ∈ xs.filter isReadyEvent :=
    List.mem_filter.mpr ⟨hmem, rfl⟩
  have hfy : ys.filter isReadyEvent = [] :=
    append_right_nil_of_mem_pair hf hmf (by simp)
  rw [hsplit, run_append]
  exact (run_ready_preserved hfy).1

theorem join_stable_aux {d c s : GoError} {t : List Event} (dir : String)
    (h : MountAndServeTrace d c s t) {xs ys : List Event} (hsplit : t = xs ++ ys)
    (hclosed : (run (initialStruct dir) xs).joinStatusAvailable = true) :
    (run (initialStruct dir) t).joinStatus = (run (initialStruct dir) xs).joinStatus := by
  have hmem := closeJoin_mem_of_available hclosed
  have hmf : Event.closeJoin ∈ xs.filter isJoinEvent :=
    List.mem_filter.mpr ⟨hmem, rfl⟩
  cases h with
  | mountFailed e c s =>
      have hf : (mountFailTrace e).filter isJoinEvent = [] := rfl
      rw [hsplit, List.filter_append] at hf
      rw [(List.append_eq_nil.mp hf).1] at hmf
      exact absurd hmf (List.not_mem_nil _)
  | mountSucceeded c s t hint =>
      have hf := trace_filter_join_ok (.mountSucceeded c s t hint)
      rw [hsplit, List.filter_append] at hf
      have hfy : ys.filter isJoinEvent = [] := by
        cases s with
        | none => exact append_right_nil_of_mem_single hf hmf
        | some f => exact append_right_nil_of_mem_pair hf hmf (by simp)
      rw [hsplit, run_append]
      exact (run_join_preserved hfy).1

theorem write_ready_then_close {d c s : GoError} {t : List Event}
    (h : MountAndServeTrace d c s t) :
    ∀ xs v ys, t = xs ++ Event.writeReady v :: ys → Event.closeReady ∈ ys := by
  intro xs v ys hsplit
  have hf := trace_filter_ready h
  rw [hsplit, List.filter_append, List.filter_cons] at hf
  simp only [isReadyEvent, isWriteReady, isCloseReady, Bool.true_or, if_true,
    Bool.or_false, reduceIte] at hf
  have hm := (pair_middle hf (by simp)).2
  exact (List.mem_filter.mp hm).1

theorem write_join_then_close {d c s : GoError} {t : List Event}
    (h : MountAndServeTrace d c s t) :
    ∀ xs v ys, t = xs ++ Event.writeJoin v :: ys → Event.closeJoin ∈ ys := by
  intro xs v ys hsplit
  cases h with
  | mountFailed e c s =>
      have hf : (mountFailTrace e).filter isJoinEvent = [] := rfl
      rw [hsplit, List.filter_append, List.filter_cons] at hf
      simp [isJoinEvent, isWriteJoin] at hf
  | mountSucceeded c s t hint =>
      have hf := trace_filter_join_ok (.mountSucceeded c s t hint)
      rw [hsplit, List.filter_append, List.filter_cons] at hf
      simp only [isJoinEvent, isWriteJoin, isCloseJoin, Bool.true_or, if_true,
        Bool.or_false, reduceIte] at hf
      cases s with
      | none => exact absurd (single_middle hf) (by simp)
      | some f =>
          have hm := (pair_middle hf (by simp)).2
          exact (List.mem_filter.mp hm).1

/-! ### Counting events in traces -/

theorem isWriteReady_sub : ∀ e, isWriteReady e = true → isReadyEvent e = true := by
  intro e hx
  simp [isReadyEvent, hx]

theorem isCloseReady_sub : ∀ e, isCloseReady e = true → isReadyEvent e = true := by
  intro e hx
  simp [isReadyEvent, hx]

theorem isWriteJoin_sub : ∀ e, isWriteJoin e = true → isJoinEvent e = true := by
  intro e hx
  simp [isJoinEvent, hx]

theorem isCloseJoin_sub : ∀ e, isCloseJoin e = true → isJoinEvent e = true := by
  intro e hx
  simp [isJoinEvent, hx]

theorem trace_countP_ready {d c s : GoError} {t : List Event}
    (h : MountAndServeTrace d c s t) :
    t.countP isWriteReady = 1 ∧ t.countP isCloseReady = 1 := by
  constructor
  · rw [countP_filter_sub isWriteReady_sub, trace_filter_ready h]
    rfl
  · rw [countP_filter_sub isCloseReady_sub, trace_filter_ready h]
    rfl

theorem trace_join_filter_cases {d c s : GoError} {t : List Event}
    (h : MountAndServeTrace d c s t) :
    t.filter isJoinEvent = [] ∨ t.filter isJoinEvent = [.closeJoin] ∨
      ∃ w, t.filter isJoinEvent = [.writeJoin w, .closeJoin] := by
  cases h with
  | mountFailed e c s => exact .inl rfl
  | mountSucceeded c s t hint =>
      have hf := trace_filter_join_ok (.mountSucceeded c s t hint)
      cases s with
      | none => exact .inr (.inl hf)
      | some f => exact .inr (.inr ⟨_, hf⟩)

theorem trace_countP_join {d c s : GoError} {t : List Event}
    (h : MountAndServeTrace d c s t) :
    t.countP isWriteJoin ≤ 1 ∧ t.countP isCloseJoin ≤ 1 := by
  rcases trace_join_filter_cases h with hf | hf | ⟨w, hf⟩ <;>
    refine ⟨?_, ?_⟩ <;>
      [rw [countP_filter_sub isWriteJoin_sub, hf];
       rw [countP_filter_sub isCloseJoin_sub, hf];
       rw [countP_filter_sub isWriteJoin_sub, hf];
       rw [countP_filter_sub isCloseJoin_sub, hf];
       rw [countP_filter_sub isWriteJoin_sub, hf];
       rw [countP_filter_sub isCloseJoin_sub, hf]] <;>
      simp [List.countP_cons, isWriteJoin, isCloseJoin]

theorem run_joinStatus_of_filter {dir : String} {xs fl : List Event}
    (hf : xs.filter isJoinEvent = fl) :
    (run (initialStruct dir) xs).joinStatus = (joinViewRun (none, false) fl).1 := by
  have h1 := run_joinView (initialStruct dir) xs
  rw [joinViewRun_filter, hf] at h1
  exact congrArg Prod.fst h1

/-! ## Example executions used to instantiate the theorems -/

/-- A complete successful-mount execution in which the serve flow runs first
and the readiness goroutine second; serve fails with "serr", the connection
carries mount error "cerr". -/
def exTraceOkErr : List Event := serveFlow (some "serr") ++ readyGoroutine (some "cerr")

/-- A complete successful-mount execution with a clean readiness signal and a
clean serve return; the serve flow runs first. -/
def exTraceOkNil : List Event := serveFlow none ++ readyGoroutine none

theorem exTraceOkErr_exec :
    MountAndServeTrace none (some "cerr") (some "serr") exTraceOkErr :=
  .mountSucceeded _ _ _ (interleave_append_right _ _)

theorem exTraceOkNil_exec :
    MountAndServeTrace none none none exTraceOkNil :=
  .mountSucceeded _ _ _ (interleave_append_right _ _)

/-! ## The claims -/

/-- C1: if the mount driver's `bazilfuse.Mount` call fails with error `e`,
then `WaitForReady` (called with an uncancelled context once the signal has
fired) returns an error wrapping `e`, the request server's `Serve` is never
invoked, and `joinStatusAvailable` is never closed nor `joinStatus` ever
written on this path, so `Join`'s outcome is never produced. -/
theorem mount_failure_isolates_ready_path
    {e : String} {c s : GoError} {t : List Event} (dir : String)
    (ctx : Context) (pick : Bool)
    (h : MountAndServeTrace (some e) c s t) (hctx : ctx.done = false) :
    (∃ w, (WaitForReady (run (initialStruct dir) t) ctx pick).1 = .returns (some w) ∧
      wraps w e) ∧
    t.countP isServeCall = 0 ∧
    t.countP isCloseJoin = 0 ∧
    t.countP isWriteJoin = 0 ∧
    (run (initialStruct dir) t).joinStatusAvailable = false := by
  cases h with
  | mountFailed e c s =>
      have hstate : run (initialStruct dir) (mountFailTrace e) =
          { dir := dir, readyStatus := some (mountWrap e), readyStatusAvailable := true,
            joinStatus := none, joinStatusAvailable := false } := rfl
      refine ⟨⟨mountWrap e, ?_, ⟨"bazilfuse.Mount: ", rfl⟩⟩, rfl, rfl, rfl, ?_⟩
      · rw [hstate]
        simp [WaitForReady, hctx]
      · rw [hstate]

theorem mount_failure_isolates_ready_path_witness :
    MountAndServeTrace (some "boom") none none (mountFailTrace "boom") ∧
    (Context.mk false "canceled").done = false ∧
    ((∃ w, (WaitForReady (run (initialStruct "/mnt") (mountFailTrace "boom"))
        ⟨false, "canceled"⟩ true).1 = .returns (some w) ∧ wraps w "boom") ∧
     (mountFailTrace "boom").countP isServeCall = 0 ∧
     (mountFailTrace "boom").countP isCloseJoin = 0 ∧
     (mountFailTrace "boom").countP isWriteJoin = 0 ∧
     (run (initialStruct "/mnt") (mountFailTrace "boom")).joinStatusAvailable = false) :=
  ⟨.mountFailed "boom" none none, rfl,
   mount_failure_isolates_ready_path "/mnt" ⟨false, "canceled"⟩ true
     (.mountFailed "boom" none none) rfl⟩

/-- C2: in every complete execution of `mountAndServe`, each outcome field is
written at most once, each channel is closed at most once, every write to an
outcome field strictly precedes the close of its paired channel, and once a
channel has been closed the paired outcome field's value never changes. -/
theorem outcomes_write_once_signal_once
    {d c s : GoError} {t : List Event} (dir : String)
    (h : MountAndServeTrace d c s t) :
    t.countP isWriteReady ≤ 1 ∧ t.countP isWriteJoin ≤ 1 ∧
    t.countP isCloseReady ≤ 1 ∧ t.countP isCloseJoin ≤ 1 ∧
    (∀ xs v ys, t = xs ++ Event.writeReady v :: ys → Event.closeReady ∈ ys) ∧
    (∀ xs v ys, t = xs ++ Event.writeJoin v :: ys → Event.closeJoin ∈ ys) ∧
    (∀ xs ys, t = xs ++ ys →
      (run (initialStruct dir) xs).readyStatusAvailable = true →
      (run (initialStruct dir) t).readyStatus = (run (initialStruct dir) xs).readyStatus) ∧
    (∀ xs ys, t = xs ++ ys →
      (run (initialStruct dir) xs).joinStatusAvailable = true →
      (run (initialStruct dir) t).joinStatus = (run (initialStruct dir) xs).joinStatus) :=
  ⟨(trace_countP_ready h).1.le, (trace_countP_join h).1,
   (trace_countP_ready h).2.le, (trace_countP_join h).2,
   write_ready_then_close h, write_join_then_close h,
   fun _ _ hs hc => ready_stable_aux dir h hs hc,
   fun _ _ hs hc => join_stable_aux dir h hs hc⟩

theorem outcomes_write_once_signal_once_witness :
    MountAndServeTrace none (some "cerr") (some "serr") exTraceOkErr ∧
    (exTraceOkErr.countP isWriteReady ≤ 1 ∧ exTraceOkErr.countP isWriteJoin ≤ 1 ∧
     exTraceOkErr.countP isCloseReady ≤ 1 ∧ exTraceOkErr.countP isCloseJoin ≤ 1 ∧
     (∀ xs v ys, exTraceOkErr = xs ++ Event.writeReady v :: ys → Event.closeReady ∈ ys) ∧
     (∀ xs v ys, exTraceOkErr = xs ++ Event.writeJoin v :: ys → Event.closeJoin ∈ ys) ∧
     (∀ xs ys, exTraceOkErr = xs ++ ys →
       (run (initialStruct "/mnt") xs).readyStatusAvailable = true →
       (run (initialStruct "/mnt") exTraceOkErr).readyStatus =
         (run (initialStruct "/mnt") xs).readyStatus) ∧
     (∀ xs ys, exTraceOkErr = xs ++ ys →
       (run (initialStruct "/mnt") xs).joinStatusAvailable = true →
       (run (initialStruct "/mnt") exTraceOkErr).joinStatus =
         (run (initialStruct "/mnt") xs).joinStatus)) :=
  ⟨exTraceOkErr_exec, outcomes_write_once_signal_once "/mnt" exTraceOkErr_exec⟩

/-- C3: after a successful driver mount, `Join` (with an uncancelled context,
once the signal has fired) returns the wrapped serve error if `Serve` failed
and success (nil) if it returned nil; `joinStatusAvailable` is closed exactly
once, and at the moment it is closed `joinStatus` already holds that final
outcome. -/
theorem join_reports_serve_outcome
    {c s : GoError} {t : List Event} (dir : String) (ctx : Context) (pick : Bool)
    (h : MountAndServeTrace none c s t) (hctx : ctx.done = false) :
    (Join (run (initialStruct dir) t) ctx pick).1 = .returns (joinOutcomeValue s) ∧
    (∀ f, s = some f → joinOutcomeValue s = some (serveWrap f) ∧ wraps (serveWrap f) f) ∧
    joinOutcomeValue none = none ∧
    t.countP isCloseJoin = 1 ∧
    (∀ xs ys, t = xs ++ Event.closeJoin :: ys →
      (run (initialStruct dir) xs).joinStatus = joinOutcomeValue s) := by
  have hj := run_join_final_ok dir h
  refine ⟨?_, ?_, rfl, ?_, ?_⟩
  · simp [Join, hj.1, hj.2, hctx]
  · intro f hs
    subst hs
    exact ⟨rfl, ⟨"Serve: ", rfl⟩⟩
  · rw [countP_filter_sub isCloseJoin_sub, trace_filter_join_ok h]
    cases s <;> rfl
  · intro xs ys hsplit
    have hf := trace_filter_join_ok h
    rw [hsplit, List.filter_append, List.filter_cons] at hf
    simp only [isJoinEvent, isWriteJoin, isCloseJoin, Bool.or_true, Bool.true_or,
      if_true, reduceIte] at hf
    cases s with
    | none =>
        have hd := single_decomp hf
        rw [run_joinStatus_of_filter hd.1]
        rfl
    | some f =>
        have hd := pair_decomp_last hf (by simp)
        rw [run_joinStatus_of_filter hd.1]
        rfl

theorem join_reports_serve_outcome_witness :
    MountAndServeTrace none (some "cerr") (some "serr") exTraceOkErr ∧
    (Context.mk false "canceled").done = false ∧
    ((Join (run (initialStruct "/mnt") exTraceOkErr) ⟨false, "canceled"⟩ true).1 =
        .returns (joinOutcomeValue (some "serr")) ∧
     (∀ f, (some "serr" : GoError) = some f →
        joinOutcomeValue (some "serr") = some (serveWrap f) ∧ wraps (serveWrap f) f) ∧
     joinOutcomeValue none = none ∧
     exTraceOkErr.countP isCloseJoin = 1 ∧
     (∀ xs ys, exTraceOkErr = xs ++ Event.closeJoin :: ys →
        (run (initialStruct "/mnt") xs).joinStatus = joinOutcomeValue (some "serr"))) :=
  ⟨exTraceOkErr_exec, rfl,
   join_reports_serve_outcome "/mnt" ⟨false, "canceled"⟩ true exTraceOkErr_exec rfl⟩

/-- C4: when the driver mount succeeds, the readiness goroutine copies the
connection's carried `MountError` into `readyStatus` and closes
`readyStatusAvailable`; in particular if the carried error is nil, a
subsequent `WaitForReady` with an uncancelled context returns success. -/
theorem readiness_copies_carried_error
    {c s : GoError} {t : List Event} (dir : String) (ctx : Context) (pick : Bool)
    (h : MountAndServeTrace none c s t) (hctx : ctx.done = false) :
    (run (initialStruct dir) t).readyStatus = c ∧
    (run (initialStruct dir) t).readyStatusAvailable = true ∧
    (c = none → (WaitForReady (run (initialStruct dir) t) ctx pick).1 = .returns none) := by
  have hr := run_ready_final dir h
  have hr1 : (run (initialStruct dir) t).readyStatus = c := hr.1
  refine ⟨hr1, hr.2, fun hc => ?_⟩
  simp [WaitForReady, hr.2, hctx, hr1, hc]

theorem readiness_copies_carried_error_witness :
    MountAndServeTrace none none none exTraceOkNil ∧
    (Context.mk false "canceled").done = false ∧
    ((run (initialStruct "/mnt") exTraceOkNil).readyStatus = none ∧
     (run (initialStruct "/mnt") exTraceOkNil).readyStatusAvailable = true ∧
     ((none : GoError) = none →
       (WaitForReady (run (initialStruct "/mnt") exTraceOkNil)
         ⟨false, "canceled"⟩ true).1 = .returns none)) :=
  ⟨exTraceOkNil_exec, rfl,
   readiness_copies_carried_error "/mnt" ⟨false, "canceled"⟩ true exTraceOkNil_exec rfl⟩

/-- C5: once the ready (resp. termination) signal has fired, every
`WaitForReady` (resp. `Join`) call whose context has not been cancelled
returns the same cached outcome — independent of the `select` choice and of
how many times the call is repeated — and leaves the struct unchanged. -/
theorem waits_idempotent_after_signal
    (mfs : MountedFileSystem) (ctx : Context) (pick pick2 : Bool)
    (hctx : ctx.done = false) :
    (mfs.readyStatusAvailable = true →
      WaitForReady mfs ctx pick = (.returns mfs.readyStatus, mfs) ∧
      WaitForReady mfs ctx pick = WaitForReady mfs ctx pick2) ∧
    (mfs.joinStatusAvailable = true →
      Join mfs ctx pick = (.returns mfs.joinStatus, mfs) ∧
      Join mfs ctx pick = Join mfs ctx pick2) := by
  constructor <;> intro hav <;>
    exact ⟨by simp [WaitForReady, Join, hav, hctx], by simp [WaitForReady, Join, hav, hctx]⟩

theorem waits_idempotent_after_signal_witness :
    (Context.mk false "canceled").done = false ∧
    (MountedFileSystem.mk "/mnt" (some "e1") true none true).readyStatusAvailable = true ∧
    (MountedFileSystem.mk "/mnt" (some "e1") true none true).joinStatusAvailable = true ∧
    (WaitForReady ⟨"/mnt", some "e1", true, none, true⟩ ⟨false, "canceled"⟩ true =
      (.returns (some "e1"), ⟨"/mnt", some "e1", true, none, true⟩)) ∧
    (Join ⟨"/mnt", some "e1", true, none, true⟩ ⟨false, "canceled"⟩ true =
      (.returns none, ⟨"/mnt", some "e1", true, none, true⟩)) :=
  ⟨rfl, rfl, rfl,
   ((waits_idempotent_after_signal ⟨"/mnt", some "e1", true, none, true⟩
      ⟨false, "canceled"⟩ true false rfl).1 rfl).1,
   ((waits_idempotent_after_signal ⟨"/mnt", some "e1", true, none, true⟩
      ⟨false, "canceled"⟩ true false rfl).2 rfl).1⟩

/-- C6: on every execution path in which the driver mount succeeds, the
deferred `c.Close()` runs exactly once — including the path where `Serve`
returns an error. -/
theorem connection_closed_exactly_once {c s : GoError} {t : List Event}
    (h : MountAndServeTrace none c s t) :
    t.countP isConnClose = 1 := by
  cases h with
  | mountSucceeded c s t hint =>
      rw [interleave_countP isConnClose hint]
      cases s <;> rfl

theorem connection_closed_exactly_once_witness :
    MountAndServeTrace none (some "cerr") (some "serr") exTraceOkErr ∧
    exTraceOkErr.countP isConnClose = 1 :=
  ⟨exTraceOkErr_exec, connection_closed_exactly_once exTraceOkErr_exec⟩

/-- C7: a `WaitForReady` or `Join` call whose context has been cancelled while
its status channel is still open returns the context's cancellation error and
leaves the struct — in particular both stored outcome fields — unchanged. -/
theorem cancellation_is_local
    (mfs : MountedFileSystem) (ctx : Context) (pick : Bool)
    (hctx : ctx.done = true) :
    (mfs.readyStatusAvailable = false →
      WaitForReady mfs ctx pick = (.returns (some ctx.errMsg), mfs)) ∧
    (mfs.joinStatusAvailable = false →
      Join mfs ctx pick = (.returns (some ctx.errMsg), mfs)) := by
  constructor <;> intro hav <;> simp [WaitForReady, Join, hav, hctx, Context.err]

theorem cancellation_is_local_witness :
    (Context.mk true "context canceled").done = true ∧
    (MountedFileSystem.mk "/mnt" none false none false).readyStatusAvailable = false ∧
    (MountedFileSystem.mk "/mnt" none false none false).joinStatusAvailable = false ∧
    (WaitForReady ⟨"/mnt", none, false, none, false⟩ ⟨true, "context canceled"⟩ true =
      (.returns (some "context canceled"), ⟨"/mnt", none, false, none, false⟩)) ∧
    (Join ⟨"/mnt", none, false, none, false⟩ ⟨true, "context canceled"⟩ true =
      (.returns (some "context canceled"), ⟨"/mnt", none, false, none, false⟩)) :=
  ⟨rfl, rfl, rfl,
   (cancellation_is_local ⟨"/mnt", none, false, none, false⟩
      ⟨true, "context canceled"⟩ true rfl).1 rfl,
   (cancellation_is_local ⟨"/mnt", none, false, none, false⟩
      ⟨true, "context canceled"⟩ true rfl).2 rfl⟩

/-- C8: every failure of the background orchestration — driver mount failure,
non-nil readiness-carried error, `Serve` error — populates exactly one outcome
field with an error preserving the failure's message, and the write appears
before the close of the paired channel among that field's events. -/
theorem failure_paths_populate_one_outcome
    {d c s : GoError} {t : List Event}
    (h : MountAndServeTrace d c s t) :
    (∀ e, d = some e →
      t.countP isOutcomeWrite = 1 ∧
      t.filter isReadyEvent = [.writeReady (some (mountWrap e)), .closeReady] ∧
      wraps (mountWrap e) e) ∧
    (∀ e, d = none → c = some e →
      t.filter isReadyEvent = [.writeReady (some e), .closeReady] ∧ wraps e e) ∧
    (∀ f, d = none → s = some f →
      t.filter isJoinEvent = [.writeJoin (some (serveWrap f)), .closeJoin] ∧
      wraps (serveWrap f) f) := by
  refine ⟨?_, ?_, ?_⟩
  · intro e hd
    subst hd
    cases h with
    | mountFailed e c s => exact ⟨rfl, rfl, ⟨"bazilfuse.Mount: ", rfl⟩⟩
  · intro e hd hc
    subst hd
    subst hc
    exact ⟨trace_filter_ready h, ⟨"", by simp⟩⟩
  · intro f hd hs
    subst hd
    subst hs
    exact ⟨trace_filter_join_ok h, ⟨"Serve: ", rfl⟩⟩

theorem failure_paths_populate_one_outcome_witness :
    MountAndServeTrace none (some "cerr") (some "serr") exTraceOkErr ∧
    ((∀ e, (none : GoError) = some e →
        exTraceOkErr.countP isOutcomeWrite = 1 ∧
        exTraceOkErr.filter isReadyEvent =
          [.writeReady (some (mountWrap e)), .closeReady] ∧
        wraps (mountWrap e) e) ∧
     (∀ e, (none : GoError) = none → (some "cerr" : GoError) = some e →
        exTraceOkErr.filter isReadyEvent = [.writeReady (some e), .closeReady] ∧
        wraps e e) ∧
     (∀ f, (none : GoError) = none → (some "serr" : GoError) = some f →
        exTraceOkErr.filter isJoinEvent =
          [.writeJoin (some (serveWrap f)), .closeJoin] ∧
        wraps (serveWrap f) f)) :=
  ⟨exTraceOkErr_exec, failure_paths_populate_one_outcome exTraceOkErr_exec⟩

/-- C9: `Mount` returns synchronously for every directory, file system and
configuration: a non-nil handle with the given directory, both status
channels still open (the mount itself has not been awaited), and a nil
error.  (`newServer` is modelled from the spec as never failing; it is not
under `src/`.) -/
theorem mount_returns_handle_immediately
    (dir : String) (fs : FileSystem) (config : MountConfig) :
    Mount dir fs config = (some (initialStruct dir), none) ∧
    Dir (initialStruct dir) = dir ∧
    (initialStruct dir).readyStatusAvailable = false ∧
    (initialStruct dir).joinStatusAvailable = false :=
  ⟨rfl, rfl, rfl, rfl⟩

/-- C10: the code imposes no ordering between the two signals after a
successful mount: there is an execution with a prefix in which
`joinStatusAvailable` is already closed while `readyStatusAvailable` is still
open, so at that point `Join` returns while `WaitForReady` still blocks. -/
theorem join_can_return_before_ready :
    ∃ t xs ys,
      MountAndServeTrace none none none t ∧
      t = xs ++ ys ∧
      (run (initialStruct "/mnt") xs).joinStatusAvailable = true ∧
      (run (initialStruct "/mnt") xs).readyStatusAvailable = false ∧
      (Join (run (initialStruct "/mnt") xs) ⟨false, ""⟩ true).1 = .returns none ∧
      (WaitForReady (run (initialStruct "/mnt") xs) ⟨false, ""⟩ true).1 = .blocks :=
  ⟨serveFlow none ++ readyGoroutine none, serveFlow none, readyGoroutine none,
   .mountSucceeded none none _ (interleave_append_right _ _),
   rfl, rfl, rfl, rfl, rfl⟩

end Fuse
